import Mathlib

/-!
Shallow embedding of the schema-driven form core of this repository
(`src/components/tambo/schema-form.tsx`, the runtime schema-version gate, and
the submission-message templating of `handleSubmit`), together with theorems
settling the specification claims about it.

JavaScript numbers (IEEE doubles) are modelled as `JNum`: an exact integer,
`NaN`, or a signed infinity.  The program under study only ever produces
integral numerics in the places the claims touch (version majors, string
lengths, edit distances), so the integer model is faithful there; fractional
values play no role in any theorem below.
-/

/-- Model of a JavaScript number: `NaN`, the two infinities, or a finite
(integral) value. -/
inductive JNum where
  | nan
  | inf
  | negInf
  | fin (n : Int)
deriving Repr, DecidableEq

namespace JNum

/-- `Number.isNaN`. -/
def isNaN : JNum → Bool
  | .nan => true
  | _ => false

/-- `Number.isFinite`. -/
def isFinite : JNum → Bool
  | .fin _ => true
  | _ => false

/-- JavaScript `===` on numbers (`NaN === NaN` is `false`). -/
def strictEq : JNum → JNum → Bool
  | .fin a, .fin b => a == b
  | .inf, .inf => true
  | .negInf, .negInf => true
  | _, _ => false

/-- JavaScript `<` on numbers (any comparison with `NaN` is `false`). -/
def lt : JNum → JNum → Bool
  | .nan, _ => false
  | _, .nan => false
  | .negInf, .negInf => false
  | .negInf, _ => true
  | _, .negInf => false
  | .inf, _ => false
  | .fin _, .inf => true
  | .fin a, .fin b => decide (a < b)

/-- JavaScript `>` on numbers. -/
def gt (a b : JNum) : Bool := lt b a

/-- `String(n)` for a number. -/
def toJSString : JNum → String
  | .nan => "NaN"
  | .inf => "Infinity"
  | .negInf => "-Infinity"
  | .fin n => toString n

end JNum

/-- Model of an arbitrary JavaScript value (`unknown`), as far as the form
core observes it.  `vObj` keeps its properties as an ordered key/value list;
`vUndef` doubles as the result of reading an absent property. -/
inductive JValue where
  | vUndef
  | vNull
  | vBool (b : Bool)
  | vNum (n : JNum)
  | vStr (s : String)
  | vArr (elems : List JValue)
  | vObj (fields : List (String × JValue))

/-- Property read `obj[key]` on an object's field list: first matching key,
`undefined` when absent. -/
def getProp (fields : List (String × JValue)) (key : String) : JValue :=
  match fields with
  | [] => .vUndef
  | (k, v) :: rest => if k = key then v else getProp rest key

theorem getProp_sizeOf_le (fields : List (String × JValue)) (key : String) :
    sizeOf (getProp fields key) ≤ sizeOf fields := by
  induction fields with
  | nil => simp [getProp]
  | cons p rest ih =>
    obtain ⟨k, v⟩ := p
    simp only [getProp]
    split
    · simp only [List.cons.sizeOf_spec, Prod.mk.sizeOf_spec]
      omega
    · refine le_trans ih ?_
      simp only [List.cons.sizeOf_spec, Prod.mk.sizeOf_spec]
      omega

/-- JavaScript strict equality `===` restricted to the values this program
compares.  Objects and arrays compare by reference; in this program the two
sides of every comparison come from distinct structures (a schema literal and
a form value), so reference equality between them is always `false`. -/
def jsStrictEq : JValue → JValue → Bool
  | .vUndef, .vUndef => true
  | .vNull, .vNull => true
  | .vBool a, .vBool b => a == b
  | .vNum a, .vNum b => a.strictEq b
  | .vStr a, .vStr b => a == b
  | _, _ => false

/-- SameValueZero, the equality used by `Array.prototype.includes`
(like `===` but `NaN` equals `NaN`); reference semantics as in `jsStrictEq`. -/
def jsSameValueZero : JValue → JValue → Bool
  | .vUndef, .vUndef => true
  | .vNull, .vNull => true
  | .vBool a, .vBool b => a == b
  | .vNum .nan, .vNum .nan => true
  | .vNum a, .vNum b => a.strictEq b
  | .vStr a, .vStr b => a == b
  | _, _ => false

/-- JavaScript truthiness, `Boolean(v)`. -/
def jsTruthy : JValue → Bool
  | .vUndef => false
  | .vNull => false
  | .vBool b => b
  | .vNum .nan => false
  | .vNum (.fin n) => n != 0
  | .vNum _ => true
  | .vStr s => s ≠ ""
  | .vArr _ => true
  | .vObj _ => true

/-- `isPlainObject` from the source: an object that is not `null` and not an
array. -/
def isPlainObject : JValue → Bool
  | .vObj _ => true
  | _ => false

/-- The whitespace class of JavaScript `trim` (ASCII part; the exotic
Unicode space characters never occur in this program's data). -/
def jsIsSpace (c : Char) : Bool :=
  c == ' ' || c == '\t' || c == '\n' || c == '\r' || c == '\x0b' || c == '\x0c'

/-- `String.prototype.trim`, over the character list (kernel-computable,
unlike `String.trim`). -/
def jsTrim (s : String) : String :=
  String.mk (((s.toList.dropWhile jsIsSpace).reverse.dropWhile jsIsSpace).reverse)

/-- `String.prototype.toLowerCase` (ASCII case mapping, which covers every
string this program lower-cases). -/
def jsToLower (s : String) : String :=
  String.mk (s.toList.map Char.toLower)

/-- The evaluation context for conditions: current form values and the
ambient context map (`{submitted}`). -/
structure ConditionEvalContext where
  values : List (String × JValue)
  context : List (String × JValue)

/-- `getRefValue`: `context.<key>` reads the context map, a non-dotted name
reads the values map, and any other dotted ref is unsupported and resolves to
`undefined` (with a console warning, not modelled). -/
def getRefValue (ref : String) (evalContext : ConditionEvalContext) : JValue :=
  if "context.".toList.isPrefixOf ref.toList then
    getProp evalContext.context (String.mk (ref.toList.drop 8))
  else if ref.toList.contains '.' then
    .vUndef
  else
    getProp evalContext.values ref

/-- `isDefinedForCondition`: defined, non-null, and (for strings) not
whitespace-only. -/
def isDefinedForCondition : JValue → Bool
  | .vUndef => false
  | .vNull => false
  | .vStr s => jsTrim s ≠ ""
  | _ => true

/-- The ref guard every comparison op of `evaluateCondition` repeats: the
`ref` property must be a string with non-blank trim, otherwise the op fails
open; on success the continuation receives the ref. -/
def withRefGuard (fields : List (String × JValue)) (k : String → Bool) : Bool :=
  match getProp fields "ref" with
  | .vStr r => if jsTrim r = "" then true else k r
  | _ => true

/-- The non-recursive comparison branches of `evaluateCondition`
(`equals`, `notEquals`, `in`, `notIn`, `exists`, `truthy`, `falsy`), plus the
unknown-op default.  `in`/`notIn` additionally guard a non-empty `values`
array; membership uses `includes`, i.e. SameValueZero. -/
def evalCompareOp (op : String) (fields : List (String × JValue))
    (evalContext : ConditionEvalContext) : Bool :=
  if op = "equals" then
    withRefGuard fields (fun r =>
      jsStrictEq (getRefValue r evalContext) (getProp fields "value"))
  else if op = "notEquals" then
    withRefGuard fields (fun r =>
      !jsStrictEq (getRefValue r evalContext) (getProp fields "value"))
  else if op = "in" then
    withRefGuard fields (fun r =>
      match getProp fields "values" with
      | .vArr vals =>
        if vals.isEmpty then true
        else vals.any (fun v => jsSameValueZero v (getRefValue r evalContext))
      | _ => true)
  else if op = "notIn" then
    withRefGuard fields (fun r =>
      match getProp fields "values" with
      | .vArr vals =>
        if vals.isEmpty then true
        else !vals.any (fun v => jsSameValueZero v (getRefValue r evalContext))
      | _ => true)
  else if op = "exists" then
    withRefGuard fields (fun r => isDefinedForCondition (getRefValue r evalContext))
  else if op = "truthy" then
    withRefGuard fields (fun r => jsTruthy (getRefValue r evalContext))
  else if op = "falsy" then
    withRefGuard fields (fun r => !jsTruthy (getRefValue r evalContext))
  else true

/-- `evaluateCondition` over a raw (`unknown`) condition value, mirroring the
source's checks: `undefined` and every non-object non-boolean value evaluate
to `true` (fail open), a boolean literal evaluates to itself, and an object
dispatches on its `op` string.  The source tests the comparison ops before
`and`/`or`/`not`; the tests are on pairwise-distinct op strings, so hoisting
the recursive combinators first (to keep the recursion small) preserves the
semantics exactly. -/
def evaluateCondition (condition : JValue) (evalContext : ConditionEvalContext) : Bool :=
  match condition with
  | .vBool b => b
  | .vObj fields =>
    match getProp fields "op" with
    | .vStr op =>
      if op = "and" then
        match h : getProp fields "conditions" with
        | .vArr elems =>
          if elems.isEmpty then true
          else elems.attach.all (fun c => evaluateCondition c.1 evalContext)
        | _ => true
      else if op = "or" then
        match h : getProp fields "conditions" with
        | .vArr elems =>
          if elems.isEmpty then true
          else elems.attach.any (fun c => evaluateCondition c.1 evalContext)
        | _ => true
      else if op = "not" then
        match h : getProp fields "condition" with
        | .vUndef => true
        | c => !evaluateCondition c evalContext
      else evalCompareOp op fields evalContext
    | _ => true
  | _ => true
termination_by sizeOf condition
decreasing_by
  all_goals
    simp only [JValue.vObj.sizeOf_spec]
  · have h1 : sizeOf c.1 < sizeOf elems := List.sizeOf_lt_of_mem c.2
    have h2 := getProp_sizeOf_le fields "conditions"
    rw [h] at h2
    simp only [JValue.vArr.sizeOf_spec] at h2
    omega
  · have h1 : sizeOf c.1 < sizeOf elems := List.sizeOf_lt_of_mem c.2
    have h2 := getProp_sizeOf_le fields "conditions"
    rw [h] at h2
    simp only [JValue.vArr.sizeOf_spec] at h2
    omega
  · have h2 := getProp_sizeOf_le fields "condition"
    rw [h] at h2
    omega

/-- Visibility decision produced by `resolveVisibility`. -/
structure Visibility where
  shouldRender : Bool
  disabled : Bool
deriving Repr, DecidableEq

/-- The `fallback` policy of a field or action. -/
inductive FallbackBehavior where
  | hidden
  | disabled
deriving Repr, DecidableEq

/-- `resolveVisibility`: render enabled when the condition holds; otherwise
apply the fallback policy, which defaults to `hidden`. -/
def resolveVisibility (condition : JValue) (fallback : Option FallbackBehavior)
    (evalContext : ConditionEvalContext) : Visibility :=
  if evaluateCondition condition evalContext then
    ⟨true, false⟩
  else
    match fallback with
    | some .disabled => ⟨true, true⟩
    | _ => ⟨false, false⟩

/-- The field `type` enumeration of the UI schema. -/
inductive FieldType where
  | text
  | email
  | number
  | select
  | checkbox
  | textarea
deriving Repr, DecidableEq

/-- A value held in the component's form state
(`Record<string, string | number | boolean>`). -/
inductive FormValue where
  | str (s : String)
  | num (n : JNum)
  | bool (b : Bool)
deriving Repr, DecidableEq

/-- `String(v)` for a form value. -/
def FormValue.toJSString : FormValue → String
  | .str s => s
  | .num n => n.toJSString
  | .bool b => if b then "true" else "false"

/-- A form value viewed as a raw JavaScript value. -/
def FormValue.toJValue : FormValue → JValue
  | .str s => .vStr s
  | .num n => .vNum n
  | .bool b => .vBool b

/-- `Boolean(v)` for a form value (or `undefined` when the id is absent). -/
def formTruthy : Option FormValue → Bool
  | none => false
  | some v => jsTruthy v.toJValue

/-- A field of the UI schema (named `Field` in the source; renamed here to
avoid Mathlib's `Field`).  `minLength`/`maxLength` are positive integers per
the zod schema; `condition` is kept as a raw value (`vUndef` = absent). -/
structure FieldNode where
  id : String
  label : String
  type : FieldType
  placeholder : Option String := none
  required : Option Bool := none
  options : Option (List String) := none
  min : Option JNum := none
  max : Option JNum := none
  minLength : Option Nat := none
  maxLength : Option Nat := none
  pattern : Option String := none
  default : Option FormValue := none
  rows : Option JNum := none
  condition : JValue := .vUndef
  fallback : Option FallbackBehavior := none

/-- First-match association-list lookup; `none` models `undefined`. -/
def lookupKey {α : Type} (l : List (String × α)) (k : String) : Option α :=
  match l with
  | [] => none
  | (k', v) :: rest => if k' = k then some v else lookupKey rest k

/-- `{...prev, [id]: value}`: overwrite the entry in place when present,
append otherwise. -/
def setKey {α : Type} (l : List (String × α)) (k : String) (v : α) :
    List (String × α) :=
  if l.any (fun p => p.1 = k) then
    l.map (fun p => if p.1 = k then (k, v) else p)
  else
    l ++ [(k, v)]

/-- `delete obj[id]`. -/
def removeKey {α : Type} (l : List (String × α)) (k : String) :
    List (String × α) :=
  match l with
  | [] => []
  | p :: rest => if p.1 = k then removeKey rest k else p :: removeKey rest k

/-- `isEmpty` from the source: absent, `false`, `NaN`, or a
whitespace-only string. -/
def isEmpty : Option FormValue → Bool
  | none => true
  | some (.bool b) => !b
  | some (.num n) => n.isNaN
  | some (.str s) => jsTrim s == ""

/-- `String(value ?? "")`. -/
def submissionString : Option FormValue → String
  | none => ""
  | some v => v.toJSString

/-- `String(value)` (an absent value prints as `"undefined"`). -/
def jsStringOfOptValue : Option FormValue → String
  | none => "undefined"
  | some v => v.toJSString

/-- A non-empty all-digit character list read as a natural number. -/
def intDigits? (l : List Char) : Option Nat :=
  if l.isEmpty then none
  else if l.all Char.isDigit then
    some (l.foldl (fun acc c => acc * 10 + (c.toNat - 48)) 0)
  else none

/-- Models the JavaScript `Number(string)` builtin on the integral inputs
this application produces; decimal fractions and exponents are approximated
as `NaN` — no theorem below depends on the numeric value of a parsed
string, only on whether `Number.isNaN` holds of it. -/
def jsNumberOfString (s : String) : JNum :=
  let t := jsTrim s
  if t = "" then .fin 0
  else if t = "Infinity" ∨ t = "+Infinity" then .inf
  else if t = "-Infinity" then .negInf
  else
    match t.toList with
    | '-' :: rest =>
      match intDigits? rest with
      | some n => .fin (-(n : Int))
      | none => .nan
    | '+' :: rest =>
      match intDigits? rest with
      | some n => .fin (n : Int)
      | none => .nan
    | l =>
      match intDigits? l with
      | some n => .fin (n : Int)
      | none => .nan

/-- Split a character list at every occurrence of `sep`. -/
def splitOnChar (sep : Char) (l : List Char) : List (List Char) :=
  match l with
  | [] => [[]]
  | c :: rest =>
    let tail := splitOnChar sep rest
    if c == sep then [] :: tail
    else
      match tail with
      | [] => [[c]]
      | t :: ts => (c :: t) :: ts

/-- The test of the email regex `^[^\s@]+@[^\s@]+\.[^\s@]+$`: no whitespace,
exactly one `@`, a non-empty local part, and a domain containing a dot with
non-empty text on both sides. -/
def jsEmailTest (s : String) : Bool :=
  match splitOnChar '@' s.toList with
  | [lpart, dpart] =>
    !lpart.isEmpty && !dpart.isEmpty &&
    (lpart ++ dpart).all (fun c => !c.isWhitespace) &&
    (List.range dpart.length).any (fun i =>
      dpart.getD i ' ' == '.' && decide (0 < i) && decide (i + 1 < dpart.length))
  | _ => false

/-- A per-field validation outcome: message plus optional suggestions. -/
structure FieldValidation where
  message : String
  suggestions : Option (List FormValue) := none
deriving Repr, DecidableEq

/-- The email block of `validateFieldValue`. -/
def emailCheck (field : FieldNode) (value : Option FormValue) : Option FieldValidation :=
  if field.type = .email then
    let email := jsTrim (submissionString value)
    if jsEmailTest email then none
    else some ⟨field.label ++ " must be a valid email address", some [.str "name@example.com"]⟩
  else none

/-- The number block of `validateFieldValue`: parse failure, then the
`min`/`max` bounds, each offering the violated bound as a suggestion. -/
def numberCheck (field : FieldNode) (value : Option FormValue) : Option FieldValidation :=
  if field.type = .number then
    let numeric : JNum :=
      match value with
      | some (.num n) => n
      | v => jsNumberOfString (jsStringOfOptValue v)
    if numeric.isNaN then
      let sugg : List FormValue :=
        (match field.min with | some m => [.num m] | none => []) ++
        (match field.max with
         | some mx =>
           if (match field.min with | some mn => mx.strictEq mn | none => false) then []
           else [.num mx]
         | none => [])
      some ⟨field.label ++ " must be a valid number",
        if sugg.isEmpty then none else some sugg⟩
    else if (match field.min with | some m => numeric.lt m | none => false) then
      match field.min with
      | some m => some ⟨field.label ++ " must be at least " ++ m.toJSString, some [.num m]⟩
      | none => none
    else if (match field.max with | some m => numeric.gt m | none => false) then
      match field.max with
      | some m => some ⟨field.label ++ " must be at most " ++ m.toJSString, some [.num m]⟩
      | none => none
    else none
  else none

/-- The select block of `validateFieldValue`: missing/empty `options` is a
misconfiguration; otherwise membership of the stringified value. -/
def selectCheck (field : FieldNode) (value : Option FormValue) : Option FieldValidation :=
  if field.type = .select then
    match field.options with
    | none =>
      some ⟨field.label ++ " is misconfigured: missing options[] for a select field", none⟩
    | some opts =>
      if opts.isEmpty then
        some ⟨field.label ++ " is misconfigured: missing options[] for a select field", none⟩
      else
        let selection := submissionString value
        if opts.contains selection then none
        else some ⟨field.label ++ " must be one of the available options",
          some (opts.map .str)⟩
  else none

/-- The text/textarea/email block of `validateFieldValue`: `minLength`,
`maxLength`, then the `pattern` regex.  `rtest pat text` models
`new RegExp(pat).test(text)`; `none` models a constructor throw, which the
source catches and ignores.  An empty `pattern` string is falsy and skipped. -/
def textLikeCheck (rtest : String → String → Option Bool) (field : FieldNode)
    (value : Option FormValue) : Option FieldValidation :=
  if field.type = .text ∨ field.type = .textarea ∨ field.type = .email then
    let text := submissionString value
    if (match field.minLength with | some ml => decide (text.length < ml) | none => false) then
      match field.minLength with
      | some ml => some ⟨field.label ++ " must be at least " ++ toString ml ++ " characters", none⟩
      | none => none
    else if (match field.maxLength with | some ml => decide (text.length > ml) | none => false) then
      match field.maxLength with
      | some ml => some ⟨field.label ++ " must be at most " ++ toString ml ++ " characters", none⟩
      | none => none
    else
      match field.pattern with
      | some p =>
        if p = "" then none
        else
          match rtest p text with
          | some false => some ⟨field.label ++ " does not match the expected format", none⟩
          | _ => none
      | none => none
  else none

/-- `validateFieldValue`: the required/empty gates, then the sequential
type-specific blocks in source order (email, number, select, text-like). -/
def validateFieldValue (rtest : String → String → Option Bool) (field : FieldNode)
    (value : Option FormValue) : Option FieldValidation :=
  let required := field.required.getD false
  if required && isEmpty value then
    if field.type = .select && !(field.options.getD []).isEmpty then
      some ⟨field.label ++ " is required", some ((field.options.getD []).map .str)⟩
    else
      some ⟨field.label ++ " is required", none⟩
  else if !required && isEmpty value then
    none
  else
    match emailCheck field value with
    | some e => some e
    | none =>
      match numberCheck field value with
      | some e => some e
      | none =>
        match selectCheck field value with
        | some e => some e
        | none => textLikeCheck rtest field value

/-- `normalizeSubmissionValue`: checkbox to boolean, number fields parse or
drop, everything else trims or drops.  The call sites only pass form-state
values or `undefined`; `null` behaves exactly like `undefined` in the
source. -/
def normalizeSubmissionValue (field : FieldNode) (value : Option FormValue) : Option JValue :=
  if field.type = .checkbox then
    some (.vBool (formTruthy value))
  else if field.type = .number then
    match value with
    | none => none
    | some (.str s) =>
      if s = "" then none
      else
        let numeric := jsNumberOfString s
        if numeric.isNaN then none else some (.vNum numeric)
    | some (.num n) => if n.isNaN then none else some (.vNum n)
    | some (.bool _) => none
  else
    let trimmed := jsTrim (submissionString value)
    if trimmed = "" then none else some (.vStr trimmed)

/-- The component's form state type (`Record<string, string|number|boolean>`);
a missing id reads as `undefined`. -/
abbrev FormState := List (String × FormValue)

/-- The evaluation context built in the component:
`{values: formData, context: {submitted}}`. -/
def mkEvalContext (formData : FormState) (submitted : Bool) : ConditionEvalContext :=
  ⟨formData.map (fun p => (p.1, p.2.toJValue)), [("submitted", .vBool submitted)]⟩

/-- One iteration of the `validate` loop: skip the field when it is hidden or
disabled, otherwise validate its current value. -/
def fieldIssue (rtest : String → String → Option Bool)
    (evalContext : ConditionEvalContext) (formData : FormState)
    (field : FieldNode) : Option (String × FieldValidation) :=
  let visibility := resolveVisibility field.condition field.fallback evalContext
  if !visibility.shouldRender || visibility.disabled then none
  else (validateFieldValue rtest field (lookupKey formData field.id)).map
    (fun v => (field.id, v))

/-- The pure content of `validate`: the `nextErrors` and `nextSuggestions`
maps it builds (suggestions only for issues carrying a non-empty list). -/
def validateResult (rtest : String → String → Option Bool)
    (fields : List FieldNode) (formData : FormState) (submitted : Bool) :
    List (String × String) × List (String × List FormValue) :=
  let ctx := mkEvalContext formData submitted
  let issues := fields.filterMap (fieldIssue rtest ctx formData)
  (issues.map (fun p => (p.1, p.2.message)),
   issues.filterMap (fun p =>
     match p.2.suggestions with
     | some l => if l.isEmpty then none else some (p.1, l)
     | none => none))

/-- The payload assembled by `handleSubmit`: rendered, enabled fields whose
normalized value is defined. -/
def buildPayload (fields : List FieldNode) (formData : FormState)
    (submitted : Bool) : List (String × JValue) :=
  let ctx := mkEvalContext formData submitted
  fields.filterMap (fun field =>
    let visibility := resolveVisibility field.condition field.fallback ctx
    if !visibility.shouldRender || visibility.disabled then none
    else (normalizeSubmissionValue field (lookupKey formData field.id)).map
      (fun v => (field.id, v)))

/-- The pieces of component state touched by `updateValue`. -/
structure FormComponentState where
  formData : List (String × FormValue)
  errors : List (String × String)
  suggestions : List (String × List FormValue)

/-- `updateValue`: set the field's value, and drop its error entry when the
stored message is truthy (non-empty) and its suggestions entry when present
(an array is always truthy). -/
def updateValue (id : String) (value : FormValue) (st : FormComponentState) :
    FormComponentState :=
  { formData := setKey st.formData id value
    errors :=
      if (match lookupKey st.errors id with | some s => s != "" | none => false) then
        removeKey st.errors id
      else st.errors
    suggestions :=
      if (lookupKey st.suggestions id).isSome then
        removeKey st.suggestions id
      else st.suggestions }

/-- One row-update of the Levenshtein dynamic program: given the previous
row's tail `prev`, the diagonal and left neighbours, produce the cells of the
current row for the remaining characters of `b`. -/
def levRowAux (ca : Char) : List Char → List Nat → Nat → Nat → List Nat
  | [], _, _, _ => []
  | _ :: _, [], _, _ => []
  | cb :: bs, up :: prest, diag, left =>
    let cost := if ca == cb then 0 else 1
    let cell := min (min (up + 1) (left + 1)) (diag + cost)
    cell :: levRowAux ca bs prest up cell

/-- `levenshtein` (renamed: Mathlib already owns `levenshtein`): the unit-cost
edit-distance dynamic program of the source, row by row; the result is the
last cell of the last row. -/
def levenshteinDist (a b : String) : Nat :=
  let bs := b.toList
  let final :=
    a.toList.foldl
      (fun st ca =>
        match st.1 with
        | [] => ([], st.2 + 1)
        | p0 :: prest => ((st.2 + 1) :: levRowAux ca bs prest p0 (st.2 + 1), st.2 + 1))
      (List.range (bs.length + 1), 0)
  final.1.getLastD 0

/-- `closestOption`: rank options by edit distance from the trimmed,
lower-cased received value against each lower-cased option (a stable
ascending sort, as JavaScript's `sort` with a score comparator), take the
best, and drop it when the distance exceeds `max(3, floor(len/2))`. -/
def closestOption (value : JValue) (options : List String) : Option String :=
  match value with
  | .vStr s =>
    if options.isEmpty then none
    else
      let normalized := jsToLower (jsTrim s)
      if normalized = "" then none
      else
        let ranked := List.insertionSort (fun (a b : String × Nat) => a.2 ≤ b.2)
          (options.map (fun o => (o, levenshteinDist normalized (jsToLower o))))
        match ranked with
        | [] => none
        | best :: _ =>
          if best.2 > max 3 (normalized.length / 2) then none
          else some best.1
  | _ => none

/-- A parsed schema version `{major, minor?, patch?}`. -/
structure ParsedSchemaVersion where
  major : Nat
  minor : Option Nat
  patch : Option Nat
deriving Repr, DecidableEq

/-- The supported major versions. -/
def SUPPORTED_SCHEMA_MAJOR_VERSIONS : List Nat := [1]

/-- `parseSchemaVersion`: the trimmed string must match
`^(\d+)(?:\.(\d+))?(?:\.(\d+))?$` — equivalently, splitting on `.` gives
one to three non-empty digit groups — and each group parses as a number.
JavaScript digit strings parse to exact values up to 2^53 and the
`Number.isFinite` guards of the source only fail beyond the double range, far
outside any version literal, so the components are modelled as exact
naturals. -/
def parseSchemaVersion (raw : String) : Option ParsedSchemaVersion :=
  let trimmed := jsTrim raw
  match (splitOnChar '.' trimmed.toList).map intDigits? with
  | [some m] => some ⟨m, none, none⟩
  | [some m, some mi] => some ⟨m, some mi, none⟩
  | [some m, some mi, some pa] => some ⟨m, some mi, some pa⟩
  | _ => none

/-- The classification produced by `getSchemaVersionInfo` (the `legacy`
variant always carries major 0 in the source). -/
inductive SchemaVersionInfo where
  | supported (raw : String) (major : Nat)
  | legacy (raw : String)
  | unsupported (raw : String) (major : Nat)
  | invalid (raw : String)
deriving Repr, DecidableEq

/-- `getSchemaVersionInfo`: invalid when unparseable, legacy for major 0,
then membership in the supported majors decides supported/unsupported. -/
def getSchemaVersionInfo (raw : String) : SchemaVersionInfo :=
  let trimmed := jsTrim raw
  match parseSchemaVersion trimmed with
  | none => .invalid trimmed
  | some parsed =>
    if parsed.major = 0 then .legacy trimmed
    else if parsed.major ∈ SUPPORTED_SCHEMA_MAJOR_VERSIONS then
      .supported trimmed parsed.major
    else .unsupported trimmed parsed.major

/-- Index of the first occurrence of `pat` in a character list, if any. -/
def firstMatchIdx (pat : List Char) : List Char → Option Nat
  | [] => if pat.isEmpty then some 0 else none
  | c :: rest =>
    if pat.isPrefixOf (c :: rest) then some 0
    else (firstMatchIdx pat rest).map (· + 1)

/-- ECMA-262 GetSubstitution for a string search value (zero capture
groups): in the replacement text, `$$` yields `$`, `$&` the matched string,
`$` followed by the backquote (`\x60`) the text before the match, `$` followed
by the quote (`\x27`) the text after the match; every other `$` sequence —
including `$n` digit references and `$<`, which have no captures to refer to —
is kept literally. -/
def getSubstitution (matched pre post : List Char) : List Char → List Char
  | [] => []
  | c :: rest =>
    if c = '$' then
      match rest with
      | [] => ['$']
      | d :: rest2 =>
        if d = '$' then '$' :: getSubstitution matched pre post rest2
        else if d = '&' then matched ++ getSubstitution matched pre post rest2
        else if d = '\x60' then pre ++ getSubstitution matched pre post rest2
        else if d = '\x27' then post ++ getSubstitution matched pre post rest2
        else '$' :: getSubstitution matched pre post (d :: rest2)
    else c :: getSubstitution matched pre post rest

/-- `String.prototype.replace` with a string search: splice the replacement —
run through `getSubstitution`, as ECMA-262 prescribes — over the first
occurrence only. -/
def jsReplaceFirst (s pat rep : String) : String :=
  match firstMatchIdx pat.toList s.toList with
  | none => s
  | some i =>
    String.mk (s.toList.take i ++
      getSubstitution pat.toList (s.toList.take i)
        (s.toList.drop (i + pat.toList.length)) rep.toList ++
      s.toList.drop (i + pat.toList.length))

/-- The `\x7b\x7bjson\x7d\x7d` placeholder of `submitMessage` (braces written
as escapes). -/
def placeholderJson : String := "\x7b\x7bjson\x7d\x7d"

/-- The default message `handleSubmit` sends when no template is configured. -/
def defaultSubmitMessage (title payloadJson : String) : String :=
  "Form submission (" ++ title ++ "):\n\n" ++ "```json\n" ++ payloadJson ++ "\n```"

/-- The message selection of `handleSubmit`: a template containing the
placeholder gets the payload spliced in (first occurrence, by `replace`); a
template without it is sent verbatim; no template falls back to the default
message. -/
def buildSubmitMessage (submitMessage : Option String) (title payloadJson : String) :
    String :=
  match submitMessage with
  | some t =>
    if (firstMatchIdx placeholderJson.toList t.toList).isSome then
      jsReplaceFirst t placeholderJson payloadJson
    else t
  | none => defaultSubmitMessage title payloadJson

/-- `conditionRefSchema`: a string that starts with `context.` or contains no
dot. -/
def validConditionRef (v : JValue) : Bool :=
  match v with
  | .vStr s => "context.".toList.isPrefixOf s.toList || !s.toList.contains '.'
  | _ => false

/-- `conditionValueSchema`: string, number, boolean or null (`z.number()`
rejects `NaN`). -/
def validConditionValue (v : JValue) : Bool :=
  match v with
  | .vStr _ => true
  | .vNum n => !n.isNaN
  | .vBool _ => true
  | .vNull => true
  | _ => false

/-- Whether property `key` is the string literal `val`. -/
def propIsStr (fs : List (String × JValue)) (key val : String) : Bool :=
  match getProp fs key with
  | .vStr s => s = val
  | _ => false

/-- The non-recursive branches of the condition-schema union: the seven
comparison-op object shapes. -/
def validConditionLeafB (fs : List (String × JValue)) : Bool :=
  ((propIsStr fs "op" "equals" || propIsStr fs "op" "notEquals") &&
    validConditionRef (getProp fs "ref") &&
    validConditionValue (getProp fs "value")) ||
  ((propIsStr fs "op" "in" || propIsStr fs "op" "notIn") &&
    validConditionRef (getProp fs "ref") &&
    (match getProp fs "values" with
     | .vArr es => !es.isEmpty && es.all validConditionValue
     | _ => false)) ||
  ((propIsStr fs "op" "exists" || propIsStr fs "op" "truthy" ||
      propIsStr fs "op" "falsy") &&
    validConditionRef (getProp fs "ref"))

/-- `conditionSchema` acceptance: a boolean, or an object matching one of the
ten tagged branches of the zod union (unknown extra keys are stripped, so
only the declared keys are checked). -/
def validConditionB (c : JValue) : Bool :=
  match c with
  | .vBool _ => true
  | .vObj fs =>
    validConditionLeafB fs ||
    ((propIsStr fs "op" "and" || propIsStr fs "op" "or") &&
      (match h : getProp fs "conditions" with
       | .vArr es => !es.isEmpty && es.attach.all (fun e => validConditionB e.1)
       | _ => false)) ||
    (propIsStr fs "op" "not" && validConditionB (getProp fs "condition"))
  | _ => false
termination_by sizeOf c
decreasing_by
  all_goals simp only [JValue.vObj.sizeOf_spec]
  · have h1 : sizeOf e.1 < sizeOf es := List.sizeOf_lt_of_mem e.2
    have h2 := getProp_sizeOf_le fields "conditions"
    rw [h] at h2
    simp only [JValue.vArr.sizeOf_spec] at h2
    omega
  · have h2 := getProp_sizeOf_le fields "condition"
    omega

/-- Is the value `undefined` (for `.optional()` keys)? -/
def isUndef : JValue → Bool
  | .vUndef => true
  | _ => false

/-- Acceptance by `z.string().optional()`. -/
def optStringProp (v : JValue) : Bool :=
  match v with
  | .vUndef => true
  | .vStr _ => true
  | _ => false

/-- Acceptance by `z.boolean().optional()` (also covers
`.optional().default(true)` at parse time). -/
def optBoolProp (v : JValue) : Bool :=
  match v with
  | .vUndef => true
  | .vBool _ => true
  | _ => false

/-- Acceptance by `z.number().optional()` (`NaN` is rejected, infinities are
not). -/
def optNumberProp (v : JValue) : Bool :=
  match v with
  | .vUndef => true
  | .vNum n => !n.isNaN
  | _ => false

/-- Acceptance by `z.number().int().positive().optional()`; every finite
`JNum` is integral in the model, and `int()` rejects the infinities. -/
def optPosIntProp (v : JValue) : Bool :=
  match v with
  | .vUndef => true
  | .vNum (.fin n) => decide (0 < n)
  | _ => false

/-- Acceptance of one entry of `uiSchema.fields` by the zod field object. -/
def validFieldPayload (v : JValue) : Bool :=
  match v with
  | .vObj fs =>
    (match getProp fs "id" with | .vStr _ => true | _ => false) &&
    (match getProp fs "label" with | .vStr _ => true | _ => false) &&
    (match getProp fs "type" with
     | .vStr t => ["text", "email", "number", "select", "checkbox", "textarea"].contains t
     | _ => false) &&
    optStringProp (getProp fs "placeholder") &&
    optBoolProp (getProp fs "required") &&
    (match getProp fs "options" with
     | .vUndef => true
     | .vArr es => es.all (fun e => match e with | .vStr _ => true | _ => false)
     | _ => false) &&
    optNumberProp (getProp fs "min") &&
    optNumberProp (getProp fs "max") &&
    optPosIntProp (getProp fs "minLength") &&
    optPosIntProp (getProp fs "maxLength") &&
    optStringProp (getProp fs "pattern") &&
    (match getProp fs "default" with
     | .vUndef => true
     | .vStr _ => true
     | .vBool _ => true
     | .vNum n => !n.isNaN
     | _ => false) &&
    optNumberProp (getProp fs "rows") &&
    (match getProp fs "condition" with
     | .vUndef => true
     | c => validConditionB c) &&
    (match getProp fs "fallback" with
     | .vUndef => true
     | .vStr s => s = "hidden" || s = "disabled"
     | _ => false)
  | _ => false

/-- Acceptance of one entry of `uiSchema.actions`. -/
def validActionPayload (v : JValue) : Bool :=
  match v with
  | .vObj fs =>
    (match getProp fs "id" with | .vStr _ => true | _ => false) &&
    (match getProp fs "label" with | .vStr _ => true | _ => false) &&
    (match getProp fs "type" with
     | .vStr t => ["button", "submit", "reset"].contains t
     | _ => false) &&
    (match getProp fs "style" with
     | .vUndef => true
     | .vStr s => ["primary", "secondary", "outline"].contains s
     | _ => false) &&
    (match getProp fs "condition" with
     | .vUndef => true
     | c => validConditionB c) &&
    (match getProp fs "fallback" with
     | .vUndef => true
     | .vStr s => s = "hidden" || s = "disabled"
     | _ => false)
  | _ => false

/-- Acceptance of the `uiSchema` object: `title` required, `fields` a
required array with at least one valid field, `actions` an optional array.
There is no `layout` key in the schema; like every unknown key, zod strips
it. -/
def uiSchemaPayloadAccepts (v : JValue) : Bool :=
  match v with
  | .vObj fs =>
    (match getProp fs "title" with | .vStr _ => true | _ => false) &&
    optStringProp (getProp fs "description") &&
    (match getProp fs "fields" with
     | .vArr es => !es.isEmpty && es.all validFieldPayload
     | _ => false) &&
    (match getProp fs "actions" with
     | .vUndef => true
     | .vArr es => es.all validActionPayload
     | _ => false)
  | _ => false

/-- Acceptance by `schemaFormSchema.safeParse`. -/
def schemaFormAccepts (props : JValue) : Bool :=
  match props with
  | .vObj fs =>
    optBoolProp (getProp fs "submitToAssistant") &&
    optStringProp (getProp fs "submitMessage") &&
    uiSchemaPayloadAccepts (getProp fs "uiSchema")
  | _ => false

/-- Whether a raw payload carries a `uiSchema` object with a non-empty
`fields` array — the content shape `schemaFormAccepts` insists on; a
layout-only payload has no such list. -/
def hasNonemptyFieldsList (props : JValue) : Bool :=
  match props with
  | .vObj fs =>
    match getProp fs "uiSchema" with
    | .vObj ufs =>
      match getProp ufs "fields" with
      | .vArr es => !es.isEmpty
      | _ => false
    | _ => false
  | _ => false

theorem attach_all_eq {α : Type} (l : List α) (f : α → Bool) :
    (l.attach.all fun c => f c.1) = l.all f := by
  rw [Bool.eq_iff_iff]
  simp [List.all_eq_true]

theorem attach_any_eq {α : Type} (l : List α) (f : α → Bool) :
    (l.attach.any fun c => f c.1) = l.any f := by
  rw [Bool.eq_iff_iff]
  simp [List.any_eq_true]

/-- A `ref` property the comparison guard rejects: not a string, or blank
after trimming. -/
def badConditionRef (v : JValue) : Bool :=
  match v with
  | .vStr s => jsTrim s == ""
  | _ => true

/-- A property that is not a non-empty array (the shape `in`/`notIn` demand
of `values` and `and`/`or` demand of `conditions`). -/
def notNonemptyArr (v : JValue) : Bool :=
  match v with
  | .vArr es => es.isEmpty
  | _ => true

/-- The seven comparison ops. -/
def comparisonOps : List String :=
  ["equals", "notEquals", "in", "notIn", "exists", "truthy", "falsy"]

/-- Every op `evaluateCondition` recognises. -/
def knownConditionOps : List String := comparisonOps ++ ["and", "or", "not"]

theorem withRefGuard_bad (fields : List (String × JValue)) (k : String → Bool)
    (hbad : badConditionRef (getProp fields "ref") = true) :
    withRefGuard fields k = true := by
  cases h : getProp fields "ref" with
  | vStr s =>
    rw [h] at hbad
    simp [badConditionRef] at hbad
    simp [withRefGuard, h, hbad]
  | _ => simp [withRefGuard, h]

theorem withRefGuard_good (fields : List (String × JValue)) (k : String → Bool)
    (r : String) (href : getProp fields "ref" = .vStr r) (hr : jsTrim r ≠ "") :
    withRefGuard fields k = k r := by
  simp [withRefGuard, href, hr]

theorem evaluateCondition_bool (b : Bool) (ctx : ConditionEvalContext) :
    evaluateCondition (.vBool b) ctx = b := by
  simp [evaluateCondition]

theorem evaluateCondition_nonObj (v : JValue) (ctx : ConditionEvalContext)
    (hb : ∀ b, v ≠ .vBool b) (ho : ∀ fs, v ≠ .vObj fs) :
    evaluateCondition v ctx = true := by
  cases v with
  | vBool b => exact absurd rfl (hb b)
  | vObj fs => exact absurd rfl (ho fs)
  | _ => simp [evaluateCondition]

theorem evaluateCondition_opNotString (fs : List (String × JValue))
    (ctx : ConditionEvalContext) (h : ∀ s, getProp fs "op" ≠ .vStr s) :
    evaluateCondition (.vObj fs) ctx = true := by
  rw [evaluateCondition]
  cases hop : getProp fs "op" with
  | vStr s => exact absurd hop (h s)
  | _ => simp

theorem evaluateCondition_compare (fs : List (String × JValue))
    (ctx : ConditionEvalContext) (op : String) (hop : getProp fs "op" = .vStr op)
    (h1 : op ≠ "and") (h2 : op ≠ "or") (h3 : op ≠ "not") :
    evaluateCondition (.vObj fs) ctx = evalCompareOp op fs ctx := by
  rw [evaluateCondition]
  simp only [hop]
  simp [h1, h2, h3]

theorem evaluateCondition_and (fs : List (String × JValue))
    (ctx : ConditionEvalContext) (elems : List JValue)
    (hop : getProp fs "op" = .vStr "and")
    (hc : getProp fs "conditions" = .vArr elems) :
    evaluateCondition (.vObj fs) ctx =
      (if elems.isEmpty then true else elems.all (fun c => evaluateCondition c ctx)) := by
  rw [evaluateCondition]
  simp only [hop]
  cases hcs : getProp fs "conditions" with
  | vArr elems2 =>
    rw [hc] at hcs
    cases hcs
    rw [Bool.eq_iff_iff]
    simp [attach_all_eq, List.all_eq_true]
  | _ => rw [hc] at hcs; cases hcs

theorem evaluateCondition_or (fs : List (String × JValue))
    (ctx : ConditionEvalContext) (elems : List JValue)
    (hop : getProp fs "op" = .vStr "or")
    (hc : getProp fs "conditions" = .vArr elems) :
    evaluateCondition (.vObj fs) ctx =
      (if elems.isEmpty then true else elems.any (fun c => evaluateCondition c ctx)) := by
  rw [evaluateCondition]
  simp only [hop]
  cases hcs : getProp fs "conditions" with
  | vArr elems2 =>
    rw [hc] at hcs
    cases hcs
    rw [Bool.eq_iff_iff]
    simp [attach_any_eq, List.any_eq_true]
  | _ => rw [hc] at hcs; cases hcs

theorem evaluateCondition_andOr_bad (fs : List (String × JValue))
    (ctx : ConditionEvalContext) (op : String)
    (hop : getProp fs "op" = .vStr op) (hor : op = "and" ∨ op = "or")
    (hbad : notNonemptyArr (getProp fs "conditions") = true) :
    evaluateCondition (.vObj fs) ctx = true := by
  rw [evaluateCondition]
  simp only [hop]
  rcases hor with rfl | rfl <;>
  · cases hcs : getProp fs "conditions" with
    | vArr elems =>
      rw [hcs] at hbad
      rw [notNonemptyArr] at hbad
      simp [hbad]
    | _ => simp

theorem evaluateCondition_not (fs : List (String × JValue))
    (ctx : ConditionEvalContext)
    (hop : getProp fs "op" = .vStr "not") :
    evaluateCondition (.vObj fs) ctx =
      (match getProp fs "condition" with
       | .vUndef => true
       | c => !evaluateCondition c ctx) := by
  rw [evaluateCondition]
  simp only [hop]
  cases hcs : getProp fs "condition" with
  | _ => simp

theorem evalCompareOp_inNotIn_bad (fs : List (String × JValue))
    (ctx : ConditionEvalContext) (op : String)
    (hor : op = "in" ∨ op = "notIn")
    (hbad : notNonemptyArr (getProp fs "values") = true) :
    evalCompareOp op fs ctx = true := by
  have hk : ∀ k : String → Bool, (∀ r, k r = true) → withRefGuard fs k = true := by
    intro k hkr
    cases h : getProp fs "ref" with
    | vStr s => simp [withRefGuard, h, hkr]
    | _ => simp [withRefGuard, h]
  rcases hor with rfl | rfl <;>
  · simp only [evalCompareOp, reduceIte]
    apply hk
    intro r
    cases hv : getProp fs "values" with
    | vArr vals =>
      rw [hv] at hbad
      rw [notNonemptyArr] at hbad
      simp [hbad]
    | _ => simp

/-- C1: a boolean literal condition evaluates to itself, and every malformed
condition fails open to `true`: a non-object non-boolean value, a missing or
non-string `op`, an unknown `op`, a comparison op whose `ref` is missing,
non-string or blank, an `in`/`notIn` whose `values` is not a non-empty array
(the only comparison ops carrying a values list), an `and`/`or` whose
`conditions` is not a non-empty array (in particular an empty list), and a
`not` with no nested condition. -/
theorem claim_C1_evaluateCondition_fail_open (ctx : ConditionEvalContext) :
    (∀ b : Bool, evaluateCondition (.vBool b) ctx = b)
    ∧ (∀ v : JValue, (∀ b, v ≠ .vBool b) → (∀ fs, v ≠ .vObj fs) →
        evaluateCondition v ctx = true)
    ∧ (∀ fs, (∀ s, getProp fs "op" ≠ .vStr s) →
        evaluateCondition (.vObj fs) ctx = true)
    ∧ (∀ fs op, getProp fs "op" = .vStr op → op ∉ knownConditionOps →
        evaluateCondition (.vObj fs) ctx = true)
    ∧ (∀ fs op, getProp fs "op" = .vStr op → op ∈ comparisonOps →
        badConditionRef (getProp fs "ref") = true →
        evaluateCondition (.vObj fs) ctx = true)
    ∧ (∀ fs op, getProp fs "op" = .vStr op → (op = "in" ∨ op = "notIn") →
        notNonemptyArr (getProp fs "values") = true →
        evaluateCondition (.vObj fs) ctx = true)
    ∧ (∀ fs op, getProp fs "op" = .vStr op → (op = "and" ∨ op = "or") →
        notNonemptyArr (getProp fs "conditions") = true →
        evaluateCondition (.vObj fs) ctx = true)
    ∧ (∀ fs, getProp fs "op" = .vStr "not" → getProp fs "condition" = .vUndef →
        evaluateCondition (.vObj fs) ctx = true) := by
  refine ⟨fun b => evaluateCondition_bool b ctx,
    fun v hb ho => evaluateCondition_nonObj v ctx hb ho,
    fun fs h => evaluateCondition_opNotString fs ctx h,
    ?_, ?_, ?_, ?_, ?_⟩
  · intro fs op hop hnot
    simp only [knownConditionOps, comparisonOps] at hnot
    simp only [List.append_eq, List.mem_append, List.mem_cons, List.not_mem_nil,
      or_false, not_or] at hnot
    obtain ⟨⟨h1, h2, h3, h4, h5, h6, h7⟩, h8, h9, h10⟩ := hnot
    rw [evaluateCondition_compare fs ctx op hop h8 h9 h10]
    simp [evalCompareOp, h1, h2, h3, h4, h5, h6, h7]
  · intro fs op hop hmem hbad
    simp only [comparisonOps, List.mem_cons, List.not_mem_nil, or_false] at hmem
    rcases hmem with rfl | rfl | rfl | rfl | rfl | rfl | rfl <;>
    · rw [evaluateCondition_compare fs ctx _ hop (by decide) (by decide) (by decide)]
      simp only [evalCompareOp, reduceIte]
      exact withRefGuard_bad _ _ hbad
  · intro fs op hop hor hbad
    have hne : op ≠ "and" ∧ op ≠ "or" ∧ op ≠ "not" := by
      rcases hor with rfl | rfl <;> exact ⟨by decide, by decide, by decide⟩
    rw [evaluateCondition_compare fs ctx op hop hne.1 hne.2.1 hne.2.2]
    exact evalCompareOp_inNotIn_bad fs ctx op hor hbad
  · intro fs op hop hor hbad
    exact evaluateCondition_andOr_bad fs ctx op hop hor hbad
  · intro fs hop hcond
    rw [evaluateCondition_not fs ctx hop, hcond]

/-- Witness for C1 at concrete malformed conditions and the literal `false`. -/
theorem claim_C1_witness :
    evaluateCondition (.vBool false) ⟨[], []⟩ = false
    ∧ evaluateCondition (.vStr "zap") ⟨[], []⟩ = true
    ∧ evaluateCondition (.vObj [("op", .vStr "frobnicate")]) ⟨[], []⟩ = true
    ∧ evaluateCondition (.vObj [("op", .vStr "equals")]) ⟨[], []⟩ = true
    ∧ evaluateCondition
        (.vObj [("op", .vStr "in"), ("ref", .vStr "a"), ("values", .vArr [])])
        ⟨[], []⟩ = true
    ∧ evaluateCondition (.vObj [("op", .vStr "and"), ("conditions", .vArr [])])
        ⟨[], []⟩ = true
    ∧ evaluateCondition (.vObj [("op", .vStr "not")]) ⟨[], []⟩ = true := by
  obtain ⟨h1, h2, h3, h4, h5, h6, h7, h8⟩ :=
    claim_C1_evaluateCondition_fail_open ⟨[], []⟩
  exact ⟨h1 false,
    h2 _ (by intro b h; cases h) (by intro fs h; cases h),
    h4 _ "frobnicate" rfl (by decide),
    h5 _ "equals" rfl (by decide) rfl,
    h6 _ "in" rfl (Or.inl rfl) rfl,
    h7 _ "and" rfl (Or.inl rfl) rfl,
    h8 _ rfl rfl⟩

/-- C6: `resolveVisibility` renders enabled when the condition evaluates
true; when false it renders disabled under fallback `disabled`, and is hidden
under fallback `hidden` or no fallback. -/
theorem claim_C6_resolveVisibility (condition : JValue)
    (fallback : Option FallbackBehavior) (ctx : ConditionEvalContext) :
    (evaluateCondition condition ctx = true →
      resolveVisibility condition fallback ctx = ⟨true, false⟩)
    ∧ (evaluateCondition condition ctx = false → fallback = some .disabled →
      resolveVisibility condition fallback ctx = ⟨true, true⟩)
    ∧ (evaluateCondition condition ctx = false →
      (fallback = some .hidden ∨ fallback = none) →
      resolveVisibility condition fallback ctx = ⟨false, false⟩) := by
  refine ⟨fun h => by simp [resolveVisibility, h],
    fun h hf => by simp [resolveVisibility, h, hf],
    fun h hf => ?_⟩
  rcases hf with rfl | rfl <;> simp [resolveVisibility, h]

/-- Witness for C6 at the literal conditions `true` and `false`. -/
theorem claim_C6_witness :
    evaluateCondition (.vBool true) ⟨[], []⟩ = true
    ∧ resolveVisibility (.vBool true) none ⟨[], []⟩ = ⟨true, false⟩
    ∧ evaluateCondition (.vBool false) ⟨[], []⟩ = false
    ∧ resolveVisibility (.vBool false) (some .disabled) ⟨[], []⟩ = ⟨true, true⟩
    ∧ resolveVisibility (.vBool false) (some .hidden) ⟨[], []⟩ = ⟨false, false⟩
    ∧ resolveVisibility (.vBool false) none ⟨[], []⟩ = ⟨false, false⟩ := by
  have ht := evaluateCondition_bool true ⟨[], []⟩
  have hf := evaluateCondition_bool false ⟨[], []⟩
  exact ⟨ht,
    (claim_C6_resolveVisibility (.vBool true) none ⟨[], []⟩).1 ht,
    hf,
    (claim_C6_resolveVisibility (.vBool false) (some .disabled) ⟨[], []⟩).2.1 hf rfl,
    (claim_C6_resolveVisibility (.vBool false) (some .hidden) ⟨[], []⟩).2.2 hf (Or.inl rfl),
    (claim_C6_resolveVisibility (.vBool false) none ⟨[], []⟩).2.2 hf (Or.inr rfl)⟩


theorem getRefValue_unsupported (r : String) (ctx : ConditionEvalContext)
    (hctx : "context.".toList.isPrefixOf r.toList = false)
    (hdot : r.toList.contains '.' = true) :
    getRefValue r ctx = .vUndef := by
  unfold getRefValue
  rw [if_neg (by rw [hctx]; simp), if_pos hdot]

/-- C8 counterexample: an `equals` condition with the unsupported dotted ref
`a.b` and value `1` evaluates to `false` — the element is hidden, not
rendered, contradicting the claim that every comparison op treats an
unsupported dotted ref as `true`. -/
theorem claim_C8_counterexample :
    evaluateCondition
      (.vObj [("op", .vStr "equals"), ("ref", .vStr "a.b"), ("value", .vNum (.fin 1))])
      ⟨[], []⟩ = false := by
  rw [evaluateCondition_compare
    [("op", .vStr "equals"), ("ref", .vStr "a.b"), ("value", .vNum (.fin 1))]
    ⟨[], []⟩ "equals" rfl (by decide) (by decide) (by decide)]
  simp only [evalCompareOp, reduceIte, withRefGuard, getProp, String.reduceEq]
  rw [if_neg (by decide), getRefValue_unsupported "a.b" ⟨[], []⟩ (by decide) (by decide)]
  rfl

/-- C8 (amended): a comparison condition whose ref contains a dot and does
not start with `context.` resolves the ref to `undefined` and applies the op
to it — it is not unconditionally treated as `true`.  Concretely: `equals`
compares `undefined === value`, `notEquals` its negation, `in`/`notIn` test
membership of `undefined` in the values list, `exists` and `truthy` return
`false`, and `falsy` returns `true`. -/
theorem claim_C8_unsupported_ref_applies_op (ctx : ConditionEvalContext)
    (r : String) (v : JValue) (vals : List JValue)
    (hctx : "context.".toList.isPrefixOf r.toList = false)
    (hdot : r.toList.contains '.' = true)
    (hblank : jsTrim r ≠ "") :
    getRefValue r ctx = .vUndef
    ∧ evaluateCondition (.vObj [("op", .vStr "equals"), ("ref", .vStr r), ("value", v)])
        ctx = jsStrictEq .vUndef v
    ∧ evaluateCondition (.vObj [("op", .vStr "notEquals"), ("ref", .vStr r), ("value", v)])
        ctx = !jsStrictEq .vUndef v
    ∧ (vals ≠ [] →
        evaluateCondition (.vObj [("op", .vStr "in"), ("ref", .vStr r), ("values", .vArr vals)])
          ctx = vals.any (fun e => jsSameValueZero e .vUndef))
    ∧ (vals ≠ [] →
        evaluateCondition (.vObj [("op", .vStr "notIn"), ("ref", .vStr r), ("values", .vArr vals)])
          ctx = !vals.any (fun e => jsSameValueZero e .vUndef))
    ∧ evaluateCondition (.vObj [("op", .vStr "exists"), ("ref", .vStr r)]) ctx = false
    ∧ evaluateCondition (.vObj [("op", .vStr "truthy"), ("ref", .vStr r)]) ctx = false
    ∧ evaluateCondition (.vObj [("op", .vStr "falsy"), ("ref", .vStr r)]) ctx = true := by
  have hundef := getRefValue_unsupported r ctx hctx hdot
  refine ⟨hundef, ?_, ?_, ?_, ?_, ?_, ?_, ?_⟩
  · rw [evaluateCondition_compare [("op", .vStr "equals"), ("ref", .vStr r), ("value", v)]
      ctx "equals" rfl (by decide) (by decide) (by decide)]
    simp only [evalCompareOp, reduceIte, withRefGuard, getProp, String.reduceEq]
    rw [if_neg hblank, hundef]
  · rw [evaluateCondition_compare [("op", .vStr "notEquals"), ("ref", .vStr r), ("value", v)]
      ctx "notEquals" rfl (by decide) (by decide) (by decide)]
    simp only [evalCompareOp, reduceIte, withRefGuard, getProp, String.reduceEq]
    rw [if_neg hblank, hundef]
  · intro hne
    rw [evaluateCondition_compare [("op", .vStr "in"), ("ref", .vStr r), ("values", .vArr vals)]
      ctx "in" rfl (by decide) (by decide) (by decide)]
    simp only [evalCompareOp, reduceIte, withRefGuard, getProp, String.reduceEq]
    rw [if_neg hblank, hundef]
    simp [List.isEmpty_eq_true, hne]
  · intro hne
    rw [evaluateCondition_compare [("op", .vStr "notIn"), ("ref", .vStr r), ("values", .vArr vals)]
      ctx "notIn" rfl (by decide) (by decide) (by decide)]
    simp only [evalCompareOp, reduceIte, withRefGuard, getProp, String.reduceEq]
    rw [if_neg hblank, hundef]
    simp [List.isEmpty_eq_true, hne]
  · rw [evaluateCondition_compare [("op", .vStr "exists"), ("ref", .vStr r)]
      ctx "exists" rfl (by decide) (by decide) (by decide)]
    simp only [evalCompareOp, reduceIte, withRefGuard, getProp, String.reduceEq]
    rw [if_neg hblank, hundef]
    rfl
  · rw [evaluateCondition_compare [("op", .vStr "truthy"), ("ref", .vStr r)]
      ctx "truthy" rfl (by decide) (by decide) (by decide)]
    simp only [evalCompareOp, reduceIte, withRefGuard, getProp, String.reduceEq]
    rw [if_neg hblank, hundef]
    rfl
  · rw [evaluateCondition_compare [("op", .vStr "falsy"), ("ref", .vStr r)]
      ctx "falsy" rfl (by decide) (by decide) (by decide)]
    simp only [evalCompareOp, reduceIte, withRefGuard, getProp, String.reduceEq]
    rw [if_neg hblank, hundef]
    rfl

/-- Witness for the amended C8 at ref `a.b`, value `1`, values `[2]`. -/
theorem claim_C8_witness :
    "context.".toList.isPrefixOf ("a.b").toList = false
    ∧ ("a.b").toList.contains '.' = true
    ∧ jsTrim "a.b" ≠ ""
    ∧ getRefValue "a.b" ⟨[], []⟩ = .vUndef
    ∧ evaluateCondition
        (.vObj [("op", .vStr "falsy"), ("ref", .vStr "a.b")]) ⟨[], []⟩ = true
    ∧ evaluateCondition
        (.vObj [("op", .vStr "truthy"), ("ref", .vStr "a.b")]) ⟨[], []⟩ = false := by
  obtain ⟨h1, _, _, _, _, _, h7, h8⟩ :=
    claim_C8_unsupported_ref_applies_op ⟨[], []⟩ "a.b" (.vNum (.fin 1))
      [.vNum (.fin 2)] (by decide) (by decide) (by decide)
  exact ⟨by decide, by decide, by decide, h1, h8, h7⟩

/-- C5: the version gate classifies every string by the source's priority:
unparseable ⇒ `invalid`, major 0 ⇒ `legacy`, a parsed major outside the
supported set ⇒ `unsupported`, a supported major ⇒ `supported`; concretely
`"1"` is supported, `"0"` legacy, `"7"` unsupported, `"abc"` invalid. -/
theorem claim_C5_version_gate (raw : String) :
    (parseSchemaVersion (jsTrim raw) = none →
      getSchemaVersionInfo raw = .invalid (jsTrim raw))
    ∧ (∀ p, parseSchemaVersion (jsTrim raw) = some p → p.major = 0 →
      getSchemaVersionInfo raw = .legacy (jsTrim raw))
    ∧ (∀ p, parseSchemaVersion (jsTrim raw) = some p → p.major ≠ 0 →
      p.major ∉ SUPPORTED_SCHEMA_MAJOR_VERSIONS →
      getSchemaVersionInfo raw = .unsupported (jsTrim raw) p.major)
    ∧ (∀ p, parseSchemaVersion (jsTrim raw) = some p → p.major ≠ 0 →
      p.major ∈ SUPPORTED_SCHEMA_MAJOR_VERSIONS →
      getSchemaVersionInfo raw = .supported (jsTrim raw) p.major)
    ∧ getSchemaVersionInfo "1" = .supported "1" 1
    ∧ getSchemaVersionInfo "0" = .legacy "0"
    ∧ getSchemaVersionInfo "7" = .unsupported "7" 7
    ∧ getSchemaVersionInfo "abc" = .invalid "abc" := by
  refine ⟨?_, ?_, ?_, ?_, by decide, by decide, by decide, by decide⟩
  · intro h
    simp [getSchemaVersionInfo, h]
  · intro p hp h0
    simp [getSchemaVersionInfo, hp, h0]
  · intro p hp h0 hmem
    simp [getSchemaVersionInfo, hp, h0, hmem]
  · intro p hp h0 hmem
    simp [getSchemaVersionInfo, hp, h0, hmem]

/-- Witness for C5 at the versions `"7"` and `"abc"`. -/
theorem claim_C5_witness :
    parseSchemaVersion (jsTrim "7") = some ⟨7, none, none⟩
    ∧ getSchemaVersionInfo "7" = .unsupported (jsTrim "7") 7
    ∧ getSchemaVersionInfo "abc" = .invalid (jsTrim "abc") := by
  refine ⟨by decide, ?_, ?_⟩
  · exact (claim_C5_version_gate "7").2.2.1 ⟨7, none, none⟩ (by decide)
      (by decide) (by decide)
  · exact (claim_C5_version_gate "abc").1 (by decide)

theorem firstMatchIdx_isPrefix (pat : List Char) :
    ∀ (l : List Char) (i : Nat), firstMatchIdx pat l = some i →
      pat.isPrefixOf (l.drop i) = true := by
  intro l
  induction l with
  | nil =>
    intro i h
    simp [firstMatchIdx] at h
    obtain ⟨hp, rfl⟩ := h
    subst hp
    rfl
  | cons c rest ih =>
    intro i h
    rw [firstMatchIdx] at h
    by_cases hp : pat.isPrefixOf (c :: rest) = true
    · rw [if_pos hp] at h
      cases h
      simpa using hp
    · rw [if_neg hp] at h
      simp only [Option.map_eq_some'] at h
      obtain ⟨j, hj, rfl⟩ := h
      simpa using ih j hj

theorem firstMatchIdx_least (pat : List Char) :
    ∀ (l : List Char) (i : Nat), firstMatchIdx pat l = some i →
      ∀ j, j < i → pat.isPrefixOf (l.drop j) = false := by
  intro l
  induction l with
  | nil =>
    intro i h j hj
    simp [firstMatchIdx] at h
    omega
  | cons c rest ih =>
    intro i h j hj
    rw [firstMatchIdx] at h
    by_cases hp : pat.isPrefixOf (c :: rest) = true
    · rw [if_pos hp] at h
      cases h
      omega
    · rw [if_neg hp] at h
      simp only [Option.map_eq_some'] at h
      obtain ⟨j2, hj2, rfl⟩ := h
      cases j with
      | zero => exact Bool.eq_false_iff.mpr hp
      | succ j3 => simpa using ih j2 hj2 j3 (by omega)

theorem firstMatchIdx_none (pat : List Char) :
    ∀ (l : List Char), firstMatchIdx pat l = none →
      ∀ j, pat.isPrefixOf (l.drop j) = false := by
  intro l
  induction l with
  | nil =>
    intro h j
    simp [firstMatchIdx] at h
    cases pat with
    | nil => simp [List.isEmpty] at h
    | cons p ps => simp [List.isPrefixOf]
  | cons c rest ih =>
    intro h j
    rw [firstMatchIdx] at h
    by_cases hp : pat.isPrefixOf (c :: rest) = true
    · rw [if_pos hp] at h
      cases h
    · rw [if_neg hp] at h
      simp only [Option.map_eq_none'] at h
      cases j with
      | zero => exact Bool.eq_false_iff.mpr hp
      | succ j2 => simpa using ih h j2

/-- C9 counterexample: with the template `{{json}} and {{json}}` and payload
`X`, only the first placeholder is substituted — the result keeps a literal
`{{json}}`, so the payload is not substituted at every occurrence. -/
theorem claim_C9_counterexample :
    buildSubmitMessage (some (placeholderJson ++ " and " ++ placeholderJson)) "T" "X"
      = "X and " ++ placeholderJson
    ∧ ("X and " ++ placeholderJson : String) ≠ "X and X" := by
  constructor
  · decide
  · decide

theorem getSubstitution_no_dollar (matched pre post : List Char) :
    ∀ l : List Char, '$' ∉ l → getSubstitution matched pre post l = l := by
  intro l
  induction l with
  | nil => intro _; rfl
  | cons c rest ih =>
    intro h
    have hc : ¬(c = '$') := fun hh => h (hh ▸ List.mem_cons_self c rest)
    have hrest : '$' ∉ rest := fun hh => h (List.mem_cons_of_mem c hh)
    rw [getSubstitution.eq_def]
    split
    · rename_i heq
      cases heq
    · rename_i c2 rest2 heq
      injection heq with hce hre
      subst hce
      subst hre
      rw [if_neg hc, ih hrest]

/-- C9 (amended): with no template the default message (which carries the
payload as a substring) is used; with a template, `replace` substitutes the
payload — processed by ECMA-262 GetSubstitution, so `$`-escape sequences in
the payload refer to the match and its surroundings — over the first
`\x7b\x7bjson\x7d\x7d` occurrence only: the match found is the least index
at which the placeholder occurs, everything after it (including further
placeholders) is kept verbatim, and a payload containing no `$` is spliced
in verbatim; a template without the placeholder is sent unchanged. -/
theorem claim_C9_submit_message_first_occurrence (title payloadJson : String) :
    buildSubmitMessage none title payloadJson = defaultSubmitMessage title payloadJson
    ∧ (∃ pre post : String,
        defaultSubmitMessage title payloadJson = pre ++ payloadJson ++ post)
    ∧ (∀ t i, firstMatchIdx placeholderJson.toList t.toList = some i →
        buildSubmitMessage (some t) title payloadJson =
          String.mk (t.toList.take i ++
            getSubstitution placeholderJson.toList (t.toList.take i)
              (t.toList.drop (i + placeholderJson.toList.length))
              payloadJson.toList ++
            t.toList.drop (i + placeholderJson.toList.length))
        ∧ ('$' ∉ payloadJson.toList →
            buildSubmitMessage (some t) title payloadJson =
              String.mk (t.toList.take i ++ payloadJson.toList ++
                t.toList.drop (i + placeholderJson.toList.length)))
        ∧ placeholderJson.toList.isPrefixOf (t.toList.drop i) = true
        ∧ (∀ j, j < i → placeholderJson.toList.isPrefixOf (t.toList.drop j) = false))
    ∧ (∀ t, firstMatchIdx placeholderJson.toList t.toList = none →
        buildSubmitMessage (some t) title payloadJson = t) := by
  refine ⟨rfl, ?_, ?_, ?_⟩
  · exact ⟨"Form submission (" ++ title ++ "):\n\n" ++ "```json\n", "\n```",
      by simp [defaultSubmitMessage, String.append_assoc]⟩
  · intro t i h
    have h2 : firstMatchIdx placeholderJson.data t.data = some i := h
    have hmain : buildSubmitMessage (some t) title payloadJson =
        String.mk (t.toList.take i ++
          getSubstitution placeholderJson.toList (t.toList.take i)
            (t.toList.drop (i + placeholderJson.toList.length))
            payloadJson.toList ++
          t.toList.drop (i + placeholderJson.toList.length)) := by
      simp [buildSubmitMessage, jsReplaceFirst, h2]
    refine ⟨hmain, ?_, firstMatchIdx_isPrefix _ _ _ h, firstMatchIdx_least _ _ _ h⟩
    intro hd
    rw [hmain, getSubstitution_no_dollar _ _ _ _ hd]
  · intro t h
    have h2 : firstMatchIdx placeholderJson.data t.data = none := h
    simp [buildSubmitMessage, h2]

/-- Witness for the amended C9 at the template `\x7b\x7bjson\x7d\x7d!` with the
dollar-free payload `X`, plus the `$$` escape at the bare placeholder
template. -/
theorem claim_C9_witness :
    firstMatchIdx placeholderJson.toList (placeholderJson ++ "!").toList = some 0
    ∧ ('$' : Char) ∉ ("X" : String).toList
    ∧ buildSubmitMessage (some (placeholderJson ++ "!")) "T" "X" =
        String.mk ((placeholderJson ++ "!").toList.take 0 ++ "X".toList ++
          (placeholderJson ++ "!").toList.drop (0 + placeholderJson.toList.length))
    ∧ buildSubmitMessage none "T" "X" = defaultSubmitMessage "T" "X"
    ∧ buildSubmitMessage (some placeholderJson) "T" "$$" = "$" := by
  have h := claim_C9_submit_message_first_occurrence "T" "X"
  exact ⟨by decide, by decide,
    (h.2.2.1 (placeholderJson ++ "!") 0 (by decide)).2.1 (by decide),
    h.1, by decide⟩

/-- C4 counterexample: for the received value `" "` (whitespace only) against
options `["a"]`, the minimum normalized edit distance is 1, within the
threshold `max 3 (0 / 2) = 3`, yet `closestOption` returns no suggestion —
the empty-after-trim guard fires first, contradicting the claim that a
suggestion is only withheld when the minimum distance exceeds the
threshold. -/
theorem claim_C4_counterexample :
    closestOption (.vStr " ") ["a"] = none
    ∧ levenshteinDist (jsToLower (jsTrim " ")) (jsToLower "a") = 1
    ∧ levenshteinDist (jsToLower (jsTrim " ")) (jsToLower "a") ≤
        max 3 ((jsToLower (jsTrim " ")).length / 2) := by
  refine ⟨by decide, by decide, by decide⟩

/-- C4 (amended): against a non-empty option list, when the trimmed
lower-cased received value is empty no suggestion is returned; otherwise the
engine returns the option of minimum Levenshtein distance between the
normalized received value and the lower-cased option, unless that minimum
distance exceeds `max(3, floor(len(normalized)/2))`, in which case it returns
none.  In particular `"amdin"` against `["admin","user"]` suggests `"admin"`
and `"xyz123zzz"` suggests nothing. -/
theorem claim_C4_closest_option (s : String) (options : List String)
    (hopts : options ≠ []) :
    (jsToLower (jsTrim s) = "" → closestOption (.vStr s) options = none)
    ∧ (jsToLower (jsTrim s) ≠ "" →
        ∃ best ∈ options,
          (∀ o ∈ options,
            levenshteinDist (jsToLower (jsTrim s)) (jsToLower best) ≤
              levenshteinDist (jsToLower (jsTrim s)) (jsToLower o))
          ∧ closestOption (.vStr s) options =
              (if levenshteinDist (jsToLower (jsTrim s)) (jsToLower best) >
                  max 3 ((jsToLower (jsTrim s)).length / 2)
               then none else some best))
    ∧ closestOption (.vStr "amdin") ["admin", "user"] = some "admin"
    ∧ closestOption (.vStr "xyz123zzz") ["admin", "user"] = none := by
  refine ⟨?_, ?_, by decide, by decide⟩
  · intro h0
    rw [closestOption]
    rw [if_neg (by simp [List.isEmpty_iff, hopts])]
    rw [if_pos h0]
  · intro h2
    haveI ht : IsTotal (String × Nat) (fun a b => a.2 ≤ b.2) :=
      ⟨fun a b => Nat.le_total a.2 b.2⟩
    haveI htr : IsTrans (String × Nat) (fun a b => a.2 ≤ b.2) :=
      ⟨fun a b c => Nat.le_trans⟩
    set normalized := jsToLower (jsTrim s) with hn
    set scored := options.map
      (fun o => (o, levenshteinDist normalized (jsToLower o))) with hsc
    set ranked :=
      List.insertionSort (fun (a b : String × Nat) => a.2 ≤ b.2) scored with hrk
    have hperm : ranked.Perm scored := List.perm_insertionSort _ _
    have hsorted : ranked.Sorted (fun a b => a.2 ≤ b.2) :=
      List.sorted_insertionSort _ _
    cases hr : ranked with
    | nil =>
      exfalso
      have := hperm.length_eq
      rw [hr] at this
      simp [hsc] at this
      exact hopts (List.length_eq_zero.mp this.symm)
    | cons best tail =>
      have hbmem : best ∈ scored :=
        hperm.mem_iff.mp (by rw [hr]; exact List.mem_cons_self _ _)
      rw [hsc] at hbmem
      simp only [List.mem_map] at hbmem
      obtain ⟨o, ho, hbo⟩ := hbmem
      refine ⟨o, ho, ?_, ?_⟩
      · intro o2 ho2
        have hmem2 : (o2, levenshteinDist normalized (jsToLower o2)) ∈ ranked := by
          rw [hperm.mem_iff, hsc]
          exact List.mem_map.mpr ⟨o2, ho2, rfl⟩
        rw [hr] at hmem2
        rcases List.mem_cons.mp hmem2 with heq | htl
        · exact le_of_eq (congrArg Prod.snd (hbo.trans heq.symm))
        · have hle := (List.pairwise_cons.mp (by rw [← hr]; exact hsorted)).1 _ htl
          have hb2 : best.2 = levenshteinDist normalized (jsToLower o) :=
            (congrArg Prod.snd hbo).symm
          rw [← hb2]
          exact hle
      · rw [closestOption]
        rw [if_neg (by simp [List.isEmpty_iff, hopts])]
        rw [← hn]
        rw [if_neg h2]
        rw [← hsc, ← hrk, hr]
        rw [← hbo]

/-- Witness for the amended C4 at `"amdin"`, `"xyz123zzz"` and a
whitespace-only received value. -/
theorem claim_C4_witness :
    (["admin", "user"] : List String) ≠ []
    ∧ closestOption (.vStr "amdin") ["admin", "user"] = some "admin"
    ∧ closestOption (.vStr "xyz123zzz") ["admin", "user"] = none
    ∧ closestOption (.vStr "  ") ["admin", "user"] = none := by
  have h := claim_C4_closest_option "amdin" ["admin", "user"] (by decide)
  have h3 := claim_C4_closest_option "  " ["admin", "user"] (by decide)
  exact ⟨by decide, h.2.2.1, h.2.2.2, h3.1 (by decide)⟩

/-- C7 counterexample: a number field passes `Infinity` through untouched
(`typeof value === "number" && !Number.isNaN(value)` holds of it), so the
normalized result is `Infinity` — a number, but not a finite one.  The form
state can reach `Infinity` by typing `1e999` into a number input. -/
theorem claim_C7_counterexample :
    normalizeSubmissionValue ⟨"n", "N", .number, none, none, none, none, none,
        none, none, none, none, none, .vUndef, none⟩ (some (.num .inf))
      = some (.vNum .inf)
    ∧ JNum.isFinite .inf = false := ⟨rfl, rfl⟩

/-- C7 (amended): `normalizeSubmissionValue` never yields an empty string or
`NaN`: a checkbox field yields the boolean coercion of its value; a number
field yields `undefined` or a non-`NaN` number (`Infinity` can pass through);
every other field type yields `undefined` or the non-empty trimmed string of
its value. -/
theorem claim_C7_normalize_submission (field : FieldNode) (value : Option FormValue) :
    normalizeSubmissionValue field value ≠ some (.vStr "")
    ∧ normalizeSubmissionValue field value ≠ some (.vNum .nan)
    ∧ (field.type = .checkbox →
      normalizeSubmissionValue field value = some (.vBool (formTruthy value)))
    ∧ (field.type = .number →
      normalizeSubmissionValue field value = none ∨
      ∃ n : JNum, normalizeSubmissionValue field value = some (.vNum n) ∧
        n.isNaN = false)
    ∧ (field.type ≠ .checkbox → field.type ≠ .number →
      normalizeSubmissionValue field value = none ∨
      (jsTrim (submissionString value) ≠ "" ∧
        normalizeSubmissionValue field value =
          some (.vStr (jsTrim (submissionString value))))) := by
  have hcheck : field.type = .checkbox →
      normalizeSubmissionValue field value = some (.vBool (formTruthy value)) :=
    fun h => by simp [normalizeSubmissionValue, h]
  have hnum : field.type = .number →
      normalizeSubmissionValue field value = none ∨
      ∃ n : JNum, normalizeSubmissionValue field value = some (.vNum n) ∧
        n.isNaN = false := by
    intro h
    cases value with
    | none => simp [normalizeSubmissionValue, h]
    | some fv =>
      cases fv with
      | str s =>
        by_cases hs : s = ""
        · simp [normalizeSubmissionValue, h, hs]
        · by_cases hnn : (jsNumberOfString s).isNaN = true
          · simp [normalizeSubmissionValue, h, hs, hnn]
          · right
            exact ⟨jsNumberOfString s,
              by simp [normalizeSubmissionValue, h, hs, hnn],
              by simpa using hnn⟩
      | num n =>
        by_cases hnn : n.isNaN = true
        · simp [normalizeSubmissionValue, h, hnn]
        · right
          exact ⟨n, by simp [normalizeSubmissionValue, h, hnn],
            by simpa using hnn⟩
      | bool b => simp [normalizeSubmissionValue, h]
  have hother : field.type ≠ .checkbox → field.type ≠ .number →
      normalizeSubmissionValue field value = none ∨
      (jsTrim (submissionString value) ≠ "" ∧
        normalizeSubmissionValue field value =
          some (.vStr (jsTrim (submissionString value)))) := by
    intro hc hn
    by_cases ht : jsTrim (submissionString value) = ""
    · simp [normalizeSubmissionValue, hc, hn, ht]
    · right
      exact ⟨ht, by simp [normalizeSubmissionValue, hc, hn, ht]⟩
  refine ⟨?_, ?_, hcheck, hnum, hother⟩
  · by_cases hcb : field.type = .checkbox
    · rw [hcheck hcb]
      simp
    · by_cases hnb : field.type = .number
      · rcases hnum hnb with h | ⟨n, hn2, _⟩
        · rw [h]
          simp
        · rw [hn2]
          simp
      · rcases hother hcb hnb with h | ⟨ht, h2⟩
        · rw [h]
          simp
        · rw [h2]
          simp [ht]
  · by_cases hcb : field.type = .checkbox
    · rw [hcheck hcb]
      simp
    · by_cases hnb : field.type = .number
      · rcases hnum hnb with h | ⟨n, hn2, hnan⟩
        · rw [h]
          simp
        · rw [hn2]
          simp only [ne_eq, Option.some.injEq, JValue.vNum.injEq]
          intro hcontra
          rw [hcontra] at hnan
          simp [JNum.isNaN] at hnan
      · rcases hother hcb hnb with h | ⟨_, h2⟩
        · rw [h]
          simp
        · rw [h2]
          simp

/-- Witness for the amended C7 at a number field holding the string `"5"`, a
checkbox field, and a text field holding blanks. -/
theorem claim_C7_witness :
    normalizeSubmissionValue ⟨"n", "N", .number, none, none, none, none, none,
        none, none, none, none, none, .vUndef, none⟩ (some (.str "5")) ≠
      some (.vStr "")
    ∧ normalizeSubmissionValue ⟨"c", "C", .checkbox, none, none, none, none,
        none, none, none, none, none, none, .vUndef, none⟩ (some (.bool true)) =
      some (.vBool (formTruthy (some (.bool true))))
    ∧ (normalizeSubmissionValue ⟨"t", "T", .text, none, none, none, none, none,
        none, none, none, none, none, .vUndef, none⟩ (some (.str "  ")) = none ∨
      (jsTrim (submissionString (some (.str "  "))) ≠ "" ∧
        normalizeSubmissionValue ⟨"t", "T", .text, none, none, none, none, none,
          none, none, none, none, none, .vUndef, none⟩ (some (.str "  ")) =
          some (.vStr (jsTrim (submissionString (some (.str "  "))))))) := by
  refine ⟨(claim_C7_normalize_submission _ _).1, ?_, ?_⟩
  · exact (claim_C7_normalize_submission _ (some (.bool true))).2.2.1 rfl
  · exact (claim_C7_normalize_submission _ (some (.str "  "))).2.2.2.2
      (by decide) (by decide)

theorem lookupKey_map_set {α : Type} (l : List (String × α)) (k : String) (v : α)
    (h : l.any (fun p => p.1 = k) = true) :
    lookupKey (l.map (fun p => if p.1 = k then (k, v) else p)) k = some v := by
  induction l with
  | nil => simp at h
  | cons p rest ih =>
    simp only [List.map_cons]
    by_cases hp : p.1 = k
    · rw [if_pos hp]
      simp [lookupKey]
    · rw [if_neg hp]
      have h2 : rest.any (fun p => p.1 = k) = true := by
        rcases List.any_eq_true.mp h with ⟨x, hx, hxk⟩
        rcases List.mem_cons.mp hx with rfl | hxr
        · exact absurd (of_decide_eq_true hxk) hp
        · exact List.any_eq_true.mpr ⟨x, hxr, hxk⟩
      simp [lookupKey, hp, ih h2]

theorem lookupKey_map_set_other {α : Type} (l : List (String × α)) (k k2 : String)
    (v : α) (hne : k2 ≠ k) :
    lookupKey (l.map (fun p => if p.1 = k then (k, v) else p)) k2 = lookupKey l k2 := by
  induction l with
  | nil => rfl
  | cons p rest ih =>
    simp only [List.map_cons]
    by_cases hp : p.1 = k
    · rw [if_pos hp]
      have hk2 : ¬(k = k2) := fun hh => hne hh.symm
      have hp2 : ¬(p.1 = k2) := fun hh => hne (hp ▸ hh : k = k2).symm
      simp [lookupKey, hk2, hp2, ih]
    · rw [if_neg hp]
      by_cases hq : p.1 = k2
      · simp [lookupKey, hq]
      · simp [lookupKey, hq, ih]

theorem lookupKey_append_single {α : Type} (l : List (String × α)) (k : String)
    (v : α) (h : l.any (fun p => p.1 = k) = false) :
    lookupKey (l ++ [(k, v)]) k = some v := by
  induction l with
  | nil => simp [lookupKey]
  | cons p rest ih =>
    rw [List.any_cons] at h
    obtain ⟨h1, h2⟩ := Bool.or_eq_false_iff.mp h
    have hp : ¬(p.1 = k) := of_decide_eq_false h1
    simp [lookupKey, hp, ih h2]

theorem lookupKey_append_single_other {α : Type} (l : List (String × α))
    (k k2 : String) (v : α) (hne : k2 ≠ k) :
    lookupKey (l ++ [(k, v)]) k2 = lookupKey l k2 := by
  induction l with
  | nil =>
    have hk : ¬(k = k2) := fun hh => hne hh.symm
    simp [lookupKey, hk]
  | cons p rest ih =>
    by_cases hq : p.1 = k2
    · simp [lookupKey, hq]
    · simp [lookupKey, hq, ih]

theorem lookupKey_setKey_self {α : Type} (l : List (String × α)) (k : String) (v : α) :
    lookupKey (setKey l k v) k = some v := by
  unfold setKey
  by_cases h : l.any (fun p => p.1 = k) = true
  · rw [if_pos h]
    exact lookupKey_map_set l k v h
  · rw [if_neg h]
    exact lookupKey_append_single l k v (Bool.eq_false_iff.mpr h)

theorem lookupKey_setKey_other {α : Type} (l : List (String × α)) (k k2 : String)
    (v : α) (hne : k2 ≠ k) :
    lookupKey (setKey l k v) k2 = lookupKey l k2 := by
  unfold setKey
  split
  · exact lookupKey_map_set_other l k k2 v hne
  · exact lookupKey_append_single_other l k k2 v hne

theorem lookupKey_removeKey_self {α : Type} (l : List (String × α)) (k : String) :
    lookupKey (removeKey l k) k = none := by
  induction l with
  | nil => rfl
  | cons p rest ih =>
    by_cases hp : p.1 = k
    · simp [removeKey, hp, ih]
    · simp [removeKey, hp, lookupKey, ih]

theorem lookupKey_removeKey_other {α : Type} (l : List (String × α)) (k k2 : String)
    (hne : k2 ≠ k) :
    lookupKey (removeKey l k) k2 = lookupKey l k2 := by
  induction l with
  | nil => rfl
  | cons p rest ih =>
    by_cases hp : p.1 = k
    · have hp2 : ¬(p.1 = k2) := fun hh => hne (hp ▸ hh : k = k2).symm
      have hk2 : ¬(k = k2) := fun hh => hne hh.symm
      simp [removeKey, hp, lookupKey, hp2, hk2, ih]
    · by_cases hq : p.1 = k2
      · simp [removeKey, hp, lookupKey, hq, hne]
      · simp [removeKey, hp, lookupKey, hq, ih]

/-- C10: `updateValue` sets exactly the updated field's entry in the form
state and leaves every other field's value untouched; it clears the stored
error and suggestions for that field id only (the error delete is guarded by
string truthiness, and `validate` only ever stores non-empty messages, which
the hypothesis records), leaving all other ids' entries unchanged. -/
theorem claim_C10_updateValue_frame (st : FormComponentState) (id : String)
    (value : FormValue)
    (herr : ∀ s, lookupKey st.errors id = some s → s ≠ "") :
    lookupKey (updateValue id value st).formData id = some value
    ∧ (∀ id2, id2 ≠ id →
        lookupKey (updateValue id value st).formData id2 = lookupKey st.formData id2)
    ∧ lookupKey (updateValue id value st).errors id = none
    ∧ (∀ id2, id2 ≠ id →
        lookupKey (updateValue id value st).errors id2 = lookupKey st.errors id2)
    ∧ lookupKey (updateValue id value st).suggestions id = none
    ∧ (∀ id2, id2 ≠ id →
        lookupKey (updateValue id value st).suggestions id2 =
          lookupKey st.suggestions id2) := by
  refine ⟨lookupKey_setKey_self _ _ _,
    fun id2 hne => lookupKey_setKey_other _ _ _ _ hne, ?_, ?_, ?_, ?_⟩
  · show lookupKey (if _ then _ else _) id = none
    cases he : lookupKey st.errors id with
    | none => simp [he]
    | some s =>
      have hs : (s != "") = true := by
        simpa using herr s he
      simp [he, hs, lookupKey_removeKey_self]
  · intro id2 hne
    show lookupKey (if _ then _ else _) id2 = _
    split
    · exact lookupKey_removeKey_other _ _ _ hne
    · rfl
  · show lookupKey (if _ then _ else _) id = none
    cases hs : lookupKey st.suggestions id with
    | none => simp [hs]
    | some l => simp [hs, lookupKey_removeKey_self]
  · intro id2 hne
    show lookupKey (if _ then _ else _) id2 = _
    split
    · exact lookupKey_removeKey_other _ _ _ hne
    · rfl

/-- Witness for C10 on a two-field state with stored errors and
suggestions. -/
theorem claim_C10_witness :
    lookupKey (updateValue "a" (.str "z")
      ⟨[("a", .str "x"), ("b", .str "y")], [("a", "bad"), ("b", "worse")],
        [("a", [.str "s"])]⟩).formData "a" = some (.str "z")
    ∧ lookupKey (updateValue "a" (.str "z")
      ⟨[("a", .str "x"), ("b", .str "y")], [("a", "bad"), ("b", "worse")],
        [("a", [.str "s"])]⟩).formData "b" = some (.str "y")
    ∧ lookupKey (updateValue "a" (.str "z")
      ⟨[("a", .str "x"), ("b", .str "y")], [("a", "bad"), ("b", "worse")],
        [("a", [.str "s"])]⟩).errors "a" = none
    ∧ lookupKey (updateValue "a" (.str "z")
      ⟨[("a", .str "x"), ("b", .str "y")], [("a", "bad"), ("b", "worse")],
        [("a", [.str "s"])]⟩).errors "b" = some "worse"
    ∧ lookupKey (updateValue "a" (.str "z")
      ⟨[("a", .str "x"), ("b", .str "y")], [("a", "bad"), ("b", "worse")],
        [("a", [.str "s"])]⟩).suggestions "a" = none := by
  have h := claim_C10_updateValue_frame
    ⟨[("a", .str "x"), ("b", .str "y")], [("a", "bad"), ("b", "worse")],
      [("a", [.str "s"])]⟩ "a" (.str "z")
    (by intro s hs; cases hs; decide)
  refine ⟨h.1, ?_, h.2.2.1, ?_, h.2.2.2.2.1⟩
  · rw [h.2.1 "b" (by decide)]
    rfl
  · rw [h.2.2.2.1 "b" (by decide)]
    rfl

theorem fieldIssue_fst (rtest : String → String → Option Bool)
    (ctx : ConditionEvalContext) (formData : FormState) (g : FieldNode)
    (p : String × FieldValidation) (h : fieldIssue rtest ctx formData g = some p) :
    p.1 = g.id := by
  simp only [fieldIssue] at h
  split at h
  · cases h
  · rcases Option.map_eq_some'.mp h with ⟨v, _, rfl⟩
    rfl

/-- C2: with pairwise-distinct field ids (the data model's invariant), a
field whose visibility resolves to not rendered or disabled contributes
neither an entry to the error map `validate` builds nor a key to the payload
`handleSubmit` assembles, regardless of its `required` flag (which is
universally quantified inside the field). -/
theorem claim_C2_hidden_or_disabled_excluded
    (rtest : String → String → Option Bool) (fields : List FieldNode)
    (formData : FormState) (submitted : Bool) (field : FieldNode)
    (hmem : field ∈ fields)
    (hnodup : (fields.map FieldNode.id).Nodup)
    (hvis : (resolveVisibility field.condition field.fallback
        (mkEvalContext formData submitted)).shouldRender = false ∨
      (resolveVisibility field.condition field.fallback
        (mkEvalContext formData submitted)).disabled = true) :
    (∀ e ∈ (validateResult rtest fields formData submitted).1, e.1 ≠ field.id)
    ∧ (∀ e ∈ buildPayload fields formData submitted, e.1 ≠ field.id) := by
  have hinj := List.inj_on_of_nodup_map hnodup
  have hskip : fieldIssue rtest (mkEvalContext formData submitted) formData field = none := by
    unfold fieldIssue
    rcases hvis with h | h <;> simp [h]
  constructor
  · intro e he
    simp only [validateResult, List.mem_map] at he
    obtain ⟨p, hp, rfl⟩ := he
    obtain ⟨g, hg, hgp⟩ := List.mem_filterMap.mp hp
    intro hid
    have hfst := fieldIssue_fst rtest _ formData g p hgp
    have : g = field := hinj hg hmem (by rw [← hfst, hid])
    rw [this] at hgp
    rw [hskip] at hgp
    cases hgp
  · intro e he
    simp only [buildPayload] at he
    obtain ⟨g, hg, hgp⟩ := List.mem_filterMap.mp he
    intro hid
    have hfst : e.1 = g.id := by
      split at hgp
      · cases hgp
      · rcases Option.map_eq_some'.mp hgp with ⟨v, _, rfl⟩
        rfl
    have : g = field := hinj hg hmem (by rw [← hfst, hid])
    rw [this] at hgp
    rcases hvis with h | h <;> simp [h] at hgp

/-- Witness for C2: a single required text field hidden by the literal
`false` condition produces no error entry and no payload key. -/
theorem claim_C2_witness :
    (resolveVisibility (JValue.vBool false) none (mkEvalContext [] false)).shouldRender
      = false
    ∧ (∀ e ∈ (validateResult (fun _ _ => some true)
        [⟨"a", "A", .text, none, some true, none, none, none, none, none, none,
          none, none, .vBool false, none⟩] [] false).1, e.1 ≠ "a")
    ∧ (∀ e ∈ buildPayload
        [⟨"a", "A", .text, none, some true, none, none, none, none, none, none,
          none, none, .vBool false, none⟩] [] false, e.1 ≠ "a") := by
  have hv : (resolveVisibility (JValue.vBool false) none
      (mkEvalContext [] false)).shouldRender = false := by
    simp [resolveVisibility, evaluateCondition]
  have h := claim_C2_hidden_or_disabled_excluded (fun _ _ => some true)
    [⟨"a", "A", .text, none, some true, none, none, none, none, none, none,
      none, none, .vBool false, none⟩] [] false
    ⟨"a", "A", .text, none, some true, none, none, none, none, none, none,
      none, none, .vBool false, none⟩
    (by simp) (by simp) (Or.inl hv)
  exact ⟨hv, h.1, h.2⟩

theorem schemaFormAccepts_requires_fields (p : JValue)
    (h : schemaFormAccepts p = true) : hasNonemptyFieldsList p = true := by
  cases p with
  | vObj fs =>
    cases hu : getProp fs "uiSchema" with
    | vObj ufs =>
      simp only [schemaFormAccepts, hu, Bool.and_eq_true] at h
      have hui := h.2
      simp only [uiSchemaPayloadAccepts, Bool.and_eq_true] at hui
      have hfl := hui.1.2
      cases hf : getProp ufs "fields" with
      | vArr es =>
        rw [hf] at hfl
        simp only [Bool.and_eq_true] at hfl
        simp [hasNonemptyFieldsList, hu, hf, hfl.1]
      | _ =>
        rw [hf] at hfl
        simp at hfl
    | _ =>
      simp only [schemaFormAccepts, hu, Bool.and_eq_true] at h
      simp [uiSchemaPayloadAccepts] at h
  | _ => simp [schemaFormAccepts] at h

/-- A minimal valid field entry. -/
def sampleFieldPayload : JValue :=
  .vObj [("id", .vStr "a"), ("label", .vStr "A"), ("type", .vStr "text")]

/-- A `uiSchema` payload carrying only a `fields` list. -/
def fieldsOnlyPayload : JValue :=
  .vObj [("uiSchema", .vObj [("title", .vStr "T"),
    ("fields", .vArr [sampleFieldPayload])])]

/-- A `uiSchema` payload carrying only a `layout` tree and no `fields`. -/
def layoutOnlyPayload : JValue :=
  .vObj [("uiSchema", .vObj [("title", .vStr "T"),
    ("layout", .vArr [.vObj [("type", .vStr "stack"),
      ("children", .vArr [sampleFieldPayload])]])])]

/-- A `uiSchema` payload carrying both `fields` and `layout`. -/
def fieldsAndLayoutPayload : JValue :=
  .vObj [("uiSchema", .vObj [("title", .vStr "T"),
    ("fields", .vArr [sampleFieldPayload]),
    ("layout", .vArr [.vObj [("type", .vStr "stack"),
      ("children", .vArr [sampleFieldPayload])]])])]

/-- C3 counterexample: the layout-only payload — a well-formed `uiSchema`
with a title and a layout tree but no `fields` list — is rejected by
`schemaFormSchema`, which has no `layout` key and requires a non-empty
`fields` array. -/
theorem claim_C3_counterexample :
    schemaFormAccepts layoutOnlyPayload = false := by decide

/-- C3 (amended): the validator accepts a fields-only payload and a payload
carrying both fields and layout (the unknown `layout` key is stripped, as
every unknown key), but rejects a layout-only payload: every accepted
payload carries a `uiSchema` with a non-empty `fields` array. -/
theorem claim_C3_accepted_shapes :
    schemaFormAccepts fieldsOnlyPayload = true
    ∧ schemaFormAccepts fieldsAndLayoutPayload = true
    ∧ schemaFormAccepts layoutOnlyPayload = false
    ∧ (∀ p, schemaFormAccepts p = true → hasNonemptyFieldsList p = true) := by
  exact ⟨by decide, by decide, by decide,
    fun p h => schemaFormAccepts_requires_fields p h⟩

/-- Witness for the amended C3 at the fields-only payload. -/
theorem claim_C3_witness :
    schemaFormAccepts fieldsOnlyPayload = true
    ∧ hasNonemptyFieldsList fieldsOnlyPayload = true := by
  have h := claim_C3_accepted_shapes
  exact ⟨h.1, h.2.2.2 fieldsOnlyPayload h.1⟩
